import Mathlib

/-!
Verification of the storage engine and query path of a read-only SQLite
clone written in Rust.

Shallow embedding conventions:
* Bytes are `Nat` (each < 256 where it matters); byte slices are `List Nat`.
* Rust `String` values are represented by their UTF-8 byte sequences
  (`List Nat`).  Rust `String` equality and ordering coincide with byte
  equality and lexicographic byte order on the UTF-8 encoding, and
  `String::from_utf8_lossy` is the identity on valid UTF-8 data, so this
  representation is faithful on the data these claims quantify over.
* Fallible Rust code (`Result`, panics, `unreachable!`) is modelled with
  `Option`: `none` is the fatal outcome.
* B-tree pages reached through page numbers in the flat database buffer are
  modelled as trees (`TTree` for table B-trees, `ITree` for index B-trees)
  whose cells carry the already-decoded payloads; the traversal functions
  mirror the source's control flow over those pages cell by cell.
-/

namespace Sqlite

/-! ## `parse_24bit_be_twos_complement` (src/src/db.rs, lines 223-235)

The source matches on the slice length: 3, 2, 1, and panics otherwise
(`panic!("SHOULDNT BE HERE")`, modelled as `none`).

* length 3: `i32::from_be_bytes([ext, b0, b1, b2])` with `ext = 0xff` iff the
  high bit of `b0` is set, then `as i64`: a sign-extended 24-bit value.
* length 2: `i16::from_be_bytes([b0, b1]) as i64`: sign-extended 16-bit value.
* length 1: `bytes[0] as i64`: `u8` cast to `i64`, which ZERO-extends.
-/
def parse_24bit_be_twos_complement (bytes : List Nat) : Option Int :=
  match bytes with
  | [b0, b1, b2] =>
      some (((b0 * 65536 + b1 * 256 + b2 : Nat) : Int)
        - (if 128 ≤ b0 then (16777216 : Int) else 0))
  | [b0, b1] =>
      some (((b0 * 256 + b1 : Nat) : Int) - (if 128 ≤ b0 then (65536 : Int) else 0))
  | [b0] => some ((b0 : Nat) : Int)
  | _ => none

/-- C4: the claim says `parse_24bit_be_twos_complement` sign-extends all of
the widths 1, 2 and 3, and in particular that every 1-byte input with the
high bit set decodes to a negative value.  The source's 1-byte arm is
`bytes[0] as i64`, a `u8`-to-`i64` cast, which zero-extends: on the input
`[0xff]` the code returns 255, not -1.  This theorem evaluates the code at
that failing input. -/
theorem c4_one_byte_zero_extended :
    parse_24bit_be_twos_complement [255] = some 255 ∧ ¬ (255 : Int) < 0 := by
  constructor
  · rfl
  · decide

/-- C10: `parse_24bit_be_twos_complement` falls into the `panic!` arm
(modelled as `none`) on every slice whose length is not 1, 2 or 3 — in
particular the empty slice produced by serial types 0, 8 and 9, and any
integer stored in 4 or more bytes. -/
theorem c10_parse24_panics_outside_widths (bytes : List Nat)
    (h : ¬ (bytes.length = 1 ∨ bytes.length = 2 ∨ bytes.length = 3)) :
    parse_24bit_be_twos_complement bytes = none := by
  match bytes with
  | [] => rfl
  | [_] => exact absurd (Or.inl rfl) h
  | [_, _] => exact absurd (Or.inr (Or.inl rfl)) h
  | [_, _, _] => exact absurd (Or.inr (Or.inr rfl)) h
  | _ :: _ :: _ :: _ :: _ => rfl

/-- Witness for C10 at the concrete 4-byte input `[0, 0, 0, 0]` (an integer
stored in 4 bytes, as serial type 4 would produce). -/
theorem c10_parse24_panics_outside_widths_witness :
    parse_24bit_be_twos_complement [0, 0, 0, 0] = none :=
  c10_parse24_panics_outside_widths [0, 0, 0, 0] (by decide)

/-! ## Byte-lexicographic order

Rust compares `String`s (and byte slices) lexicographically; on UTF-8 data
the `String` order is exactly the lexicographic order of the byte
sequences.  `ltB a b` is the strict order `a < b`. -/

def ltB : List Nat → List Nat → Bool
  | [], [] => false
  | [], _ :: _ => true
  | _ :: _, [] => false
  | a :: as, b :: bs => if a < b then true else if b < a then false else ltB as bs

theorem ltB_irrefl : ∀ l : List Nat, ltB l l = false
  | [] => rfl
  | a :: as => by simp [ltB, ltB_irrefl as]

theorem ltB_trans {a b c : List Nat} (h₁ : ltB a b = true) (h₂ : ltB b c = true) :
    ltB a c = true := by
  induction a generalizing b c with
  | nil =>
    cases b with
    | nil => simp [ltB] at h₁
    | cons y ys =>
      cases c with
      | nil => simp [ltB] at h₂
      | cons z zs => simp [ltB]
  | cons x xs ih =>
    cases b with
    | nil => simp [ltB] at h₁
    | cons y ys =>
      cases c with
      | nil => simp [ltB] at h₂
      | cons z zs =>
        simp only [ltB] at h₁ h₂ ⊢
        split_ifs at h₁ h₂ ⊢ <;> first | rfl | omega | exact ih h₁ h₂

theorem ltB_eq_of_not {a b : List Nat} (h₁ : ltB a b = false) (h₂ : ltB b a = false) :
    a = b := by
  induction a generalizing b with
  | nil =>
    cases b with
    | nil => rfl
    | cons y ys => simp [ltB] at h₁
  | cons x xs ih =>
    cases b with
    | nil => simp [ltB] at h₂
    | cons y ys =>
      simp only [ltB] at h₁ h₂
      by_cases hxy : x < y
      · rw [if_pos hxy] at h₁; exact absurd h₁ (by decide)
      by_cases hyx : y < x
      · rw [if_pos hyx] at h₂; exact absurd h₂ (by decide)
      rw [if_neg hxy, if_neg hyx] at h₁
      rw [if_neg hyx, if_neg hxy] at h₂
      have hxyeq : x = y := by omega
      rw [hxyeq, ih h₁ h₂]

/-- `value < key` follows when neither `key < value` nor `value = key`. -/
theorem ltB_of_not_gt_ne {key v : List Nat} (h₁ : ltB key v = false) (h₂ : v ≠ key) :
    ltB v key = true := by
  cases hvk : ltB v key with
  | true => rfl
  | false => exact absurd (ltB_eq_of_not hvk h₁) h₂

/-! ## Index B-tree model

`ITree` models an index B-tree rooted at some page: a `leaf` is a
`LeafIndex` page whose cells carry the decoded index record
`(key bytes, rowid bytes)`; an `interior` is an `InteriorIndex` page whose
cells carry `(left child page, key bytes, rowid bytes)` in cell-pointer
order, plus the page header's mandatory `right_most_pointer` child. -/

mutual
inductive ITree : Type where
  | leaf : List (List Nat × List Nat) → ITree
  | interior : ICells → ITree → ITree

inductive ICells : Type where
  | nil : ICells
  | cons : ITree → List Nat → List Nat → ICells → ICells
end

/-- `rowid as usize` (64-bit wrap of the signed decoded value). -/
def wrapU64 (i : Int) : Nat := (i % (18446744073709551616 : Int)).toNat

/-- The decoded rowid of an index entry, as the `usize` that `parse_page`
pushes.  The `getD 0` default is only reached when the stored width is
outside 1..=3, where the source panics. -/
def decodeRowid (rid : List Nat) : Nat :=
  wrapU64 ((parse_24bit_be_twos_complement rid).getD 0)

/-- The `LeafIndex` arm of `parse_page` (src/src/db.rs lines 192-212): for
each cell in cell-pointer order, decode the record; if the key byte-equals
the searched value, decode the rowid and push it. -/
def leafIndexCollect (v : List Nat) : List (List Nat × List Nat) → Option (List Nat)
  | [] => some []
  | (key, rid) :: rest =>
    if key = v then
      match parse_24bit_be_twos_complement rid, leafIndexCollect v rest with
      | some i, some rs => some (wrapU64 i :: rs)
      | _, _ => none
    else leafIndexCollect v rest

mutual
/-- src/src/db.rs `parse_page` (lines 114-215), the index equality search.
On an interior page it runs the cell loop and then unconditionally descends
the `right_most_pointer` child (the source recursion after the loop runs
whether or not the loop exited early). -/
def parse_page (v : List Nat) : ITree → Option (List Nat)
  | .leaf cells => leafIndexCollect v cells
  | .interior cells rm =>
    match interiorIndexLoop v cells, parse_page v rm with
    | some a, some b => some (a ++ b)
    | _, _ => none

/-- The `InteriorIndex` cell loop of `parse_page` (lines 134-179):
`value > key` skips the cell; `value == key` pushes the cell's rowid, then
descends the left child, then continues; `value < key` descends the left
child and breaks out of the loop. -/
def interiorIndexLoop (v : List Nat) : ICells → Option (List Nat)
  | .nil => some []
  | .cons child key rid rest =>
    if ltB key v then interiorIndexLoop v rest
    else if v = key then
      match parse_24bit_be_twos_complement rid, parse_page v child,
          interiorIndexLoop v rest with
      | some i, some c, some r => some (wrapU64 i :: (c ++ r))
      | _, _, _ => none
    else parse_page v child
end

mutual
/-- All `(key, rowid bytes)` entries of an index tree in in-order
(left child before its cell, cells in pointer order, right-most last). -/
def ientries : ITree → List (List Nat × List Nat)
  | .leaf cells => cells
  | .interior cells rm => ientriesCells cells ++ ientries rm

def ientriesCells : ICells → List (List Nat × List Nat)
  | .nil => []
  | .cons child key rid rest => ientries child ++ (key, rid) :: ientriesCells rest
end

/-- The index keys are non-decreasing in in-order: no later key is
strictly below an earlier one. -/
def ISorted (t : ITree) : Prop :=
  List.Pairwise (fun a b => ltB b a = false) ((ientries t).map Prod.fst)

/-- Every stored rowid has width 1, 2 or 3 (the widths the engine decodes). -/
def IWidths (t : ITree) : Prop :=
  ∀ e ∈ ientries t, e.2.length = 1 ∨ e.2.length = 2 ∨ e.2.length = 3

instance (t : ITree) : Decidable (ISorted t) := by
  unfold ISorted; infer_instance

instance (t : ITree) : Decidable (IWidths t) := by
  unfold IWidths; infer_instance

/-- The rowids of exactly those entries whose key byte-equals `v`, in entry
order. -/
def matchRowids (v : List Nat) (es : List (List Nat × List Nat)) : List Nat :=
  es.filterMap (fun e => if e.1 = v then some (decodeRowid e.2) else none)

theorem matchRowids_append (v : List Nat) (es₁ es₂ : List (List Nat × List Nat)) :
    matchRowids v (es₁ ++ es₂) = matchRowids v es₁ ++ matchRowids v es₂ :=
  List.filterMap_append es₁ es₂ _

theorem matchRowids_eq_nil {v : List Nat} {es : List (List Nat × List Nat)}
    (h : ∀ e ∈ es, e.1 ≠ v) : matchRowids v es = [] := by
  induction es with
  | nil => rfl
  | cons e rest ih =>
    simp only [matchRowids, List.filterMap_cons]
    rw [if_neg (h e (List.mem_cons_self e rest))]
    exact ih fun x hx => h x (List.mem_cons_of_mem e hx)

theorem parse24_isSome {rid : List Nat}
    (h : rid.length = 1 ∨ rid.length = 2 ∨ rid.length = 3) :
    ∃ i, parse_24bit_be_twos_complement rid = some i := by
  match rid with
  | [a] => exact ⟨_, rfl⟩
  | [a, b] => exact ⟨_, rfl⟩
  | [a, b, c] => exact ⟨_, rfl⟩
  | [] => simp at h
  | _ :: _ :: _ :: _ :: _ => simp at h

theorem leafIndexCollect_eq (v : List Nat) (cells : List (List Nat × List Nat))
    (hw : ∀ e ∈ cells, e.2.length = 1 ∨ e.2.length = 2 ∨ e.2.length = 3) :
    leafIndexCollect v cells = some (matchRowids v cells) := by
  induction cells with
  | nil => rfl
  | cons e rest ih =>
    obtain ⟨key, rid⟩ := e
    have hrest := ih fun x hx => hw x (List.mem_cons_of_mem _ hx)
    by_cases hk : key = v
    · obtain ⟨i, hi⟩ := parse24_isSome (hw (key, rid) (List.mem_cons_self _ rest))
      simp [leafIndexCollect, hk, hi, hrest, matchRowids, List.filterMap_cons, decodeRowid]
    · simp [leafIndexCollect, hk, hrest, matchRowids, List.filterMap_cons]

mutual
/-- Core index-search invariant: on a tree whose in-order keys are
non-decreasing and whose rowids have decodable widths, `parse_page`
succeeds and collects a permutation of the rowids of the entries whose key
byte-equals the searched value. -/
theorem parse_page_perm (v : List Nat) :
    ∀ t : ITree,
      List.Pairwise (fun a b => ltB b a = false) ((ientries t).map Prod.fst) →
      (∀ e ∈ ientries t, e.2.length = 1 ∨ e.2.length = 2 ∨ e.2.length = 3) →
      ∃ l, parse_page v t = some l ∧ l.Perm (matchRowids v (ientries t))
  | ITree.leaf cells => fun _ hw => by
      refine ⟨matchRowids v cells, ?_, List.Perm.refl _⟩
      simpa [parse_page, ientries] using
        leafIndexCollect_eq v cells (by simpa [ientries] using hw)
  | ITree.interior cells rm => fun hs hw => by
      rw [ientries, List.map_append] at hs
      obtain ⟨hs₁, hs₂, -⟩ := List.pairwise_append.mp hs
      rw [ientries] at hw
      have hw₁ : ∀ e ∈ ientriesCells cells,
          e.2.length = 1 ∨ e.2.length = 2 ∨ e.2.length = 3 :=
        fun e he => hw e (List.mem_append_left _ he)
      have hw₂ : ∀ e ∈ ientries rm,
          e.2.length = 1 ∨ e.2.length = 2 ∨ e.2.length = 3 :=
        fun e he => hw e (List.mem_append_right _ he)
      obtain ⟨a, ha, hpa⟩ := interiorIndexLoop_perm v cells hs₁ hw₁
      obtain ⟨b, hb, hpb⟩ := parse_page_perm v rm hs₂ hw₂
      refine ⟨a ++ b, by simp [parse_page, ha, hb], ?_⟩
      rw [ientries, matchRowids_append]
      exact hpa.append hpb

theorem interiorIndexLoop_perm (v : List Nat) :
    ∀ cs : ICells,
      List.Pairwise (fun a b => ltB b a = false) ((ientriesCells cs).map Prod.fst) →
      (∀ e ∈ ientriesCells cs, e.2.length = 1 ∨ e.2.length = 2 ∨ e.2.length = 3) →
      ∃ l, interiorIndexLoop v cs = some l ∧ l.Perm (matchRowids v (ientriesCells cs))
  | ICells.nil => fun _ _ => ⟨[], rfl, by simp [ientriesCells, matchRowids]⟩
  | ICells.cons child key rid rest => fun hs hw => by
      rw [ientriesCells, List.map_append, List.map_cons] at hs
      obtain ⟨hsc, hskr', hcross⟩ := List.pairwise_append.mp hs
      obtain ⟨hkey_kr, hskr⟩ := List.pairwise_cons.mp hskr'
      rw [ientriesCells] at hw
      have hwc : ∀ e ∈ ientries child,
          e.2.length = 1 ∨ e.2.length = 2 ∨ e.2.length = 3 :=
        fun e he => hw e (List.mem_append_left _ he)
      have hwkey : rid.length = 1 ∨ rid.length = 2 ∨ rid.length = 3 :=
        hw (key, rid) (List.mem_append_right _ (List.mem_cons_self _ _))
      have hwr : ∀ e ∈ ientriesCells rest,
          e.2.length = 1 ∨ e.2.length = 2 ∨ e.2.length = 3 :=
        fun e he => hw e (List.mem_append_right _ (List.mem_cons_of_mem _ he))
      have hchild_ne : ltB key v = true → ∀ e ∈ ientries child, e.1 ≠ v := by
        intro hgt e he hev
        have : ltB key e.1 = false :=
          hcross e.1 (List.mem_map_of_mem Prod.fst he) key (List.mem_cons_self _ _)
        rw [hev] at this
        rw [this] at hgt
        exact Bool.noConfusion hgt
      by_cases hgt : ltB key v = true
      · -- value > key: the cell and its left child are skipped
        obtain ⟨r, hr, hpr⟩ := interiorIndexLoop_perm v rest hskr hwr
        refine ⟨r, by simp [interiorIndexLoop, hgt, hr], ?_⟩
        simp only [ientriesCells]
        rw [matchRowids_append, matchRowids_eq_nil (hchild_ne hgt)]
        have hkey_ne : key ≠ v := by
          intro hkv; rw [hkv, ltB_irrefl] at hgt; exact Bool.noConfusion hgt
        simp only [List.nil_append, matchRowids, List.filterMap_cons, if_neg hkey_ne]
        exact hpr
      · by_cases heq : v = key
        · -- value == key: push the rowid, search the child, continue
          obtain ⟨i, hi⟩ := parse24_isSome hwkey
          obtain ⟨c, hc, hpc⟩ := parse_page_perm v child hsc hwc
          obtain ⟨r, hr, hpr⟩ := interiorIndexLoop_perm v rest hskr hwr
          refine ⟨wrapU64 i :: (c ++ r), ?_, ?_⟩
          · simp only [interiorIndexLoop]
            rw [if_neg hgt, if_pos heq, hi, hc, hr]
          simp only [ientriesCells]
          rw [matchRowids_append]
          have hkv : key = v := heq.symm
          simp only [matchRowids, List.filterMap_cons, if_pos hkv]
          have hdec : decodeRowid rid = wrapU64 i := by simp [decodeRowid, hi]
          rw [hdec]
          exact ((hpc.append hpr).cons (wrapU64 i)).trans List.perm_middle.symm
        · -- value < key: search the child, then break out of the loop
          obtain ⟨c, hc, hpc⟩ := parse_page_perm v child hsc hwc
          refine ⟨c, by simp [interiorIndexLoop, hgt, heq, hc], ?_⟩
          have hgt' : ltB key v = false := by
            cases h : ltB key v with
            | true => exact absurd h hgt
            | false => rfl
          have hvk : ltB v key = true := ltB_of_not_gt_ne hgt' heq
          have hrest_ne : ∀ e ∈ (key, rid) :: ientriesCells rest, e.1 ≠ v := by
            intro e he hev
            rcases List.mem_cons.mp he with h | h
            · rw [h] at hev
              exact heq hev.symm
            · have : ltB e.1 key = false :=
                hkey_kr e.1 (List.mem_map_of_mem Prod.fst h)
              rw [hev] at this
              rw [this] at hvk
              exact Bool.noConfusion hvk
          simp only [ientriesCells]
          rw [matchRowids_append, matchRowids_eq_nil hrest_ne, List.append_nil]
          exact hpc
end

/-! ## C2: claim-level statements -/

/-- The cell keys of one interior page, in cell order. -/
def icellKeys : ICells → List (List Nat)
  | .nil => []
  | .cons _ key _ rest => key :: icellKeys rest

/-- `keysNondec ks` holds when consecutive keys never decrease. -/
def keysNondec : List (List Nat) → Bool
  | [] => true
  | [_] => true
  | a :: b :: rest => !ltB b a && keysNondec (b :: rest)

mutual
/-- The well-formedness EXACTLY as claim C2 words it: on every interior
page, the cell keys are non-decreasing in cell order, and each cell's left
subtree holds only keys less than or equal to that cell's key.  (It says
nothing about the keys stored under later cells or under the right-most
child relative to earlier cell keys.) -/
def litwf : ITree → Bool
  | .leaf _ => true
  | .interior cells rm => keysNondec (icellKeys cells) && litwfCells cells && litwf rm

def litwfCells : ICells → Bool
  | .nil => true
  | .cons child key _ rest =>
    litwf child && (ientries child).all (fun e => !ltB key e.1) && litwfCells rest
end

/-- A two-cell interior page with keys "5" (0x35) and "9" (0x39); the second
cell's left child holds the key "3" (0x33), which is ≤ "9", so the tree
satisfies claim C2's literal well-formedness.  Searching for "3" descends
the first cell's child (since "3" < "5") and breaks, never visiting the
second cell's child, so the entry ("3", rowid 3) is missed. -/
def c2Bad : ITree :=
  ITree.interior
    (ICells.cons (ITree.leaf [([53], [1])]) [53] [9]
      (ICells.cons (ITree.leaf [([51], [3])]) [57] [9] ICells.nil))
    (ITree.leaf [])

/-- C2 counterexample: under the claim's literal well-formedness the search
is NOT complete: on `c2Bad` (which satisfies that well-formedness, with all
rowid widths in 1..=3) the equality search for "3" returns `[]` although the
index holds an entry whose key byte-equals "3" with rowid 3. -/
theorem c2_collect_rowids_incomplete :
    litwf c2Bad = true ∧ IWidths c2Bad ∧
    parse_page [51] c2Bad = some [] ∧
    matchRowids [51] (ientries c2Bad) = [3] ∧
    ¬ (([] : List Nat).Perm [3]) := by
  refine ⟨by decide, by decide, by decide, by decide, by decide⟩

/-- C2 (amended): for every index B-tree whose in-order key sequence is
non-decreasing (equivalently: interior keys non-decreasing in cell order,
each cell's left subtree holding only keys ≤ the cell's key, AND every key
under a later cell or the right-most child being ≥ the cell's key) and whose
stored rowid widths are 1..=3, the index equality search `parse_page`
succeeds and collects exactly the rowids of the index entries whose key is
byte-equal to the searched value — as a multiset (a permutation of them), so
no rowid is repeated unless the index itself stores duplicate entries. -/
theorem c2_index_search_collects (v : List Nat) (t : ITree)
    (hs : ISorted t) (hw : IWidths t) :
    ∃ l, parse_page v t = some l ∧ l.Perm (matchRowids v (ientries t)) :=
  parse_page_perm v t hs hw

/-- A small sorted index with a duplicated key "b" (0x62): searching it
returns the two rowids 2 and 2. -/
def c2Wit : ITree :=
  ITree.interior
    (ICells.cons (ITree.leaf [([97], [1]), ([98], [2])]) [98] [2] ICells.nil)
    (ITree.leaf [([99], [3])])

/-- Witness for the amended C2 at a concrete sorted index. -/
theorem c2_index_search_collects_witness :
    ∃ l, parse_page [98] c2Wit = some l ∧
      l.Perm (matchRowids [98] (ientries c2Wit)) :=
  c2_index_search_collects [98] c2Wit (by decide) (by decide)

/-! ## Table B-tree model

`TTree` models a table B-tree: a `leaf` is a `LeafTable` page whose cells
carry the decoded `(rowid, record columns)` (columns already passed through
`String::from_utf8_lossy`, which both row readers apply identically); an
`interior` is an `InteriorTable` page whose cells carry
`(left child page, rowid key)` in cell-pointer order plus the
`right_most_pointer` child. -/

mutual
inductive TTree : Type where
  | leaf : List (Nat × List (List Nat)) → TTree
  | interior : TCells → TTree → TTree

inductive TCells : Type where
  | nil : TCells
  | cons : TTree → Nat → TCells → TCells
end

/-- Decimal ASCII rendering of a `u64` (`key.to_string()`).  The fuel
argument makes the recursion structural; `n` itself always suffices since
the argument shrinks by a factor of 10 each step. -/
def natBytesAux : Nat → Nat → List Nat
  | 0, n => [48 + n % 10]
  | fuel + 1, n => if n < 10 then [48 + n] else natBytesAux fuel (n / 10) ++ [48 + n % 10]

def natBytes (n : Nat) : List Nat := natBytesAux n n

/-- src/src/db.rs `Record` (lines 384-387): a materialized row; `row_id` is
the cell rowid rendered in decimal, `columns` the decoded record columns. -/
structure Record where
  row_id : List Nat
  columns : List (List Nat)
deriving DecidableEq

/-- The `Field` consumed by the executor.  Modelled from the spec: db.rs
(line 392) and util.rs (line 18) read `field.is_primary_key`, but the
`Field` declared in src/src/creation_sql.rs (lines 124-128) carries only
`name` — the flag the spec describes ("an ordered list of
`(name, is_primary_key)` fields") is missing from that declaration; see C5. -/
structure Field where
  name : List Nat
  is_primary_key : Bool
deriving DecidableEq

/-- src/src/db.rs `get_value_for_record` (lines 389-397): an INTEGER PRIMARY
KEY column is stored as NULL in the record, so its value is read from
`row_id`; any other column is read from the record columns. -/
def get_value_for_record (record : Record) (ind : Nat) (field : Field) : List Nat :=
  if field.is_primary_key then record.row_id else record.columns.getD ind []

mutual
/-- All `(rowid, columns)` rows of a table tree in traversal order. -/
def trows : TTree → List (Nat × List (List Nat))
  | .leaf cells => cells
  | .interior cells rm => trowsCells cells ++ trows rm

def trowsCells : TCells → List (Nat × List (List Nat))
  | .nil => []
  | .cons child _ rest => trows child ++ trowsCells rest
end

def trowids (t : TTree) : List Nat := (trows t).map Prod.fst

def mkRecord (rc : Nat × List (List Nat)) : Record :=
  { row_id := natBytes rc.1, columns := rc.2 }

mutual
/-- src/src/db.rs `get_them_records` (lines 307-377), the full table scan:
a leaf yields its cells as records in cell order; an interior page yields
each cell's left child recursively, then the right-most child. -/
def get_them_records : TTree → List Record
  | .leaf cells => cells.map mkRecord
  | .interior cells rm => getThemRecordsCells cells ++ get_them_records rm

def getThemRecordsCells : TCells → List Record
  | .nil => []
  | .cons child _ rest => get_them_records child ++ getThemRecordsCells rest
end

/-- The `LeafTable` arm of `get_record_by_row_id` (lines 278-301): scan the
cells; on the first cell whose rowid equals the target, build the record.
Falling off the end is the source's `unreachable!` (modelled as `none`). -/
def lookupLeafCells (row_id : Nat) : List (Nat × List (List Nat)) → Option Record
  | [] => none
  | (key, cols) :: rest =>
    if key = row_id then some { row_id := natBytes key, columns := cols }
    else lookupLeafCells row_id rest

mutual
/-- src/src/db.rs `get_record_by_row_id` (lines 238-304), the by-rowid
descent: on an interior page, the cell loop returns from the first cell
whose rowid key is ≥ the target (`some result`); if no cell matches
(`none`), the descent falls through to the `right_most_pointer` child. -/
def get_record_by_row_id (row_id : Nat) : TTree → Option Record
  | .leaf cells => lookupLeafCells row_id cells
  | .interior cells rm =>
    match lookupInteriorCells row_id cells with
    | some r => r
    | none => get_record_by_row_id row_id rm

/-- The `InteriorTable` cell loop of `get_record_by_row_id` (lines 255-267):
`some r` models the loop's early `return` with result `r`; `none` models
falling off the end of the loop. -/
def lookupInteriorCells (row_id : Nat) : TCells → Option (Option Record)
  | .nil => none
  | .cons child key rest =>
    if row_id ≤ key then some (get_record_by_row_id row_id child)
    else lookupInteriorCells row_id rest
end

mutual
/-- Table B-tree well-formedness: each interior cell's key bounds its left
subtree from above and every row under a later cell or the right-most child
from below, recursively.  `rmRows` carries the rows under the right-most
child of the node whose cells are being checked. -/
def twf : TTree → Bool
  | .leaf _ => true
  | .interior cells rm => twfCells (trows rm) cells && twf rm

def twfCells (rmRows : List (Nat × List (List Nat))) : TCells → Bool
  | .nil => true
  | .cons child key rest =>
    twf child && (trows child).all (fun rc => decide (rc.1 ≤ key)) &&
      (trowsCells rest ++ rmRows).all (fun rc => decide (key < rc.1)) &&
      twfCells rmRows rest
end

theorem lookupLeafCells_finds {R : Nat} {cells : List (Nat × List (List Nat))}
    (h : R ∈ cells.map Prod.fst) :
    ∃ cols, lookupLeafCells R cells = some { row_id := natBytes R, columns := cols } ∧
      (R, cols) ∈ cells := by
  induction cells with
  | nil => simp at h
  | cons e rest ih =>
    obtain ⟨key, cols⟩ := e
    by_cases hk : key = R
    · subst hk
      exact ⟨cols, by simp [lookupLeafCells], List.mem_cons_self _ _⟩
    · have : R ∈ rest.map Prod.fst := by
        rcases List.mem_cons.mp h with h' | h'
        · exact absurd h'.symm hk
        · exact h'
      obtain ⟨cols', hl, hm⟩ := ih this
      exact ⟨cols', by simpa [lookupLeafCells, hk] using hl, List.mem_cons_of_mem _ hm⟩

mutual
/-- On a well-formed table tree, the by-rowid descent finds a row with the
requested rowid whenever one exists. -/
theorem get_record_by_row_id_mem (R : Nat) :
    ∀ t : TTree, twf t = true → R ∈ trowids t →
      ∃ cols, get_record_by_row_id R t = some { row_id := natBytes R, columns := cols } ∧
        (R, cols) ∈ trows t
  | TTree.leaf cells => fun _ hmem => by
      simpa [get_record_by_row_id, trows] using
        lookupLeafCells_finds (by simpa [trowids, trows] using hmem)
  | TTree.interior cells rm => fun hwf hmem => by
      rw [twf, Bool.and_eq_true] at hwf
      obtain ⟨hcells, hrm⟩ := hwf
      rcases lookupInteriorCells_mem R cells (trows rm) hcells
          (by simpa [trowids, trows] using hmem) with
        ⟨cols, hl, hm⟩ | ⟨hl, hm⟩
      · refine ⟨cols, ?_, ?_⟩
        · rw [get_record_by_row_id, hl]
        · rw [trows]
          exact List.mem_append_left _ hm
      · obtain ⟨cols, hl', hm'⟩ := get_record_by_row_id_mem R rm hrm hm
        refine ⟨cols, ?_, ?_⟩
        · rw [get_record_by_row_id, hl]
          exact hl'
        · rw [trows]
          exact List.mem_append_right _ hm'

theorem lookupInteriorCells_mem (R : Nat) :
    ∀ (cs : TCells) (rmRows : List (Nat × List (List Nat))),
      twfCells rmRows cs = true →
      R ∈ (trowsCells cs ++ rmRows).map Prod.fst →
      (∃ cols, lookupInteriorCells R cs =
          some (some { row_id := natBytes R, columns := cols }) ∧
        (R, cols) ∈ trowsCells cs) ∨
      (lookupInteriorCells R cs = none ∧ R ∈ rmRows.map Prod.fst)
  | TCells.nil, rmRows => fun _ hmem =>
      Or.inr ⟨rfl, by simpa [trowsCells] using hmem⟩
  | TCells.cons child key rest, rmRows => fun hwf hmem => by
      rw [twfCells] at hwf
      simp only [Bool.and_eq_true] at hwf
      obtain ⟨⟨⟨hchild, hle⟩, hgt⟩, hrest⟩ := hwf
      rw [List.all_eq_true] at hle hgt
      by_cases hR : R ≤ key
      · -- the loop returns here, descending into the left child
        have hmem' : R ∈ trowids child := by
          simp only [trowsCells, List.append_assoc, List.map_append,
            List.mem_append] at hmem
          rcases hmem with h | h
          · exact h
          · exfalso
            rcases h with h | h
            · obtain ⟨rc, hrc, hfst⟩ := List.mem_map.mp h
              have h2 := hgt rc (List.mem_append_left _ hrc)
              rw [decide_eq_true_eq] at h2
              omega
            · obtain ⟨rc, hrc, hfst⟩ := List.mem_map.mp h
              have h2 := hgt rc (List.mem_append_right _ hrc)
              rw [decide_eq_true_eq] at h2
              omega
        obtain ⟨cols, hl, hm⟩ := get_record_by_row_id_mem R child hchild hmem'
        refine Or.inl ⟨cols, ?_, ?_⟩
        · rw [lookupInteriorCells, if_pos hR, hl]
        · rw [trowsCells]
          exact List.mem_append_left _ hm
      · -- the key is below the target: move to the next cell
        have hmem' : R ∈ (trowsCells rest ++ rmRows).map Prod.fst := by
          simp only [trowsCells, List.append_assoc, List.map_append,
            List.mem_append] at hmem
          rcases hmem with h | h
          · exfalso
            obtain ⟨rc, hrc, hfst⟩ := List.mem_map.mp h
            have := hle rc hrc
            rw [decide_eq_true_eq] at this
            omega
          · simpa [List.map_append, List.mem_append] using h
        rcases lookupInteriorCells_mem R rest rmRows hrest hmem' with
          ⟨cols, hl, hm⟩ | ⟨hl, hm⟩
        · refine Or.inl ⟨cols, ?_, ?_⟩
          · rw [lookupInteriorCells, if_neg hR]
            exact hl
          · rw [trowsCells]
            exact List.mem_append_right _ hm
        · refine Or.inr ⟨?_, hm⟩
          rw [lookupInteriorCells, if_neg hR]
          exact hl
end

/-- With distinct rowids the found row is THE row: the descent returns
exactly the record of the unique `(R, cols)` row. -/
theorem get_record_by_row_id_finds {t : TTree} {R : Nat} {cols : List (List Nat)}
    (hwf : twf t = true) (hnd : (trowids t).Nodup) (hmem : (R, cols) ∈ trows t) :
    get_record_by_row_id R t = some { row_id := natBytes R, columns := cols } := by
  obtain ⟨cols', hl, hm⟩ := get_record_by_row_id_mem R t hwf
    (List.mem_map_of_mem Prod.fst hmem)
  have : (R, cols) = (R, cols') :=
    List.inj_on_of_nodup_map hnd hmem hm rfl
  rw [hl]
  cases this
  rfl

theorem lookupLeafCells_shape {R : Nat} {cells : List (Nat × List (List Nat))}
    {rec : Record} (h : lookupLeafCells R cells = some rec) :
    rec.row_id = natBytes R ∧ (R, rec.columns) ∈ cells := by
  induction cells with
  | nil => simp [lookupLeafCells] at h
  | cons e rest ih =>
    obtain ⟨key, cols⟩ := e
    by_cases hk : key = R
    · subst hk
      rw [lookupLeafCells, if_pos rfl, Option.some.injEq] at h
      subst h
      exact ⟨rfl, List.mem_cons_self _ _⟩
    · simp only [lookupLeafCells, if_neg hk] at h
      obtain ⟨h1, h2⟩ := ih h
      exact ⟨h1, List.mem_cons_of_mem _ h2⟩

mutual
/-- Whatever row the by-rowid descent returns (well-formed tree or not), its
`row_id` field is the decimal rendering of the requested rowid — the leaf
arm only accepts a cell whose rowid equals the target — and its columns are
those of some row of the tree with that rowid. -/
theorem get_record_by_row_id_shape (R : Nat) :
    ∀ t : TTree, ∀ {rec : Record}, get_record_by_row_id R t = some rec →
      rec.row_id = natBytes R ∧ (R, rec.columns) ∈ trows t
  | TTree.leaf cells => fun h => by
      rw [get_record_by_row_id] at h
      obtain ⟨h1, h2⟩ := lookupLeafCells_shape h
      exact ⟨h1, by simpa [trows] using h2⟩
  | TTree.interior cells rm => fun h => by
      rw [get_record_by_row_id] at h
      cases hl : lookupInteriorCells R cells with
      | some r =>
        rw [hl] at h
        subst h
        obtain ⟨h1, h2⟩ := lookupInteriorCells_shape R cells hl
        exact ⟨h1, by rw [trows]; exact List.mem_append_left _ h2⟩
      | none =>
        rw [hl] at h
        obtain ⟨h1, h2⟩ := get_record_by_row_id_shape R rm h
        exact ⟨h1, by rw [trows]; exact List.mem_append_right _ h2⟩

theorem lookupInteriorCells_shape (R : Nat) :
    ∀ cs : TCells, ∀ {rec : Record},
      lookupInteriorCells R cs = some (some rec) →
      rec.row_id = natBytes R ∧ (R, rec.columns) ∈ trowsCells cs
  | TCells.nil => fun h => by simp [lookupInteriorCells] at h
  | TCells.cons child key rest => fun h => by
      rw [lookupInteriorCells] at h
      by_cases hR : R ≤ key
      · rw [if_pos hR, Option.some.injEq] at h
        obtain ⟨h1, h2⟩ := get_record_by_row_id_shape R child h
        exact ⟨h1, by rw [trowsCells]; exact List.mem_append_left _ h2⟩
      · rw [if_neg hR] at h
        obtain ⟨h1, h2⟩ := lookupInteriorCells_shape R rest h
        exact ⟨h1, by rw [trowsCells]; exact List.mem_append_right _ h2⟩
end

/-- C3: for every row fetched by the executor, the projected value of a
column whose `Field` is marked PRIMARY KEY is the decimal rendering of the
row's cell rowid (the record column, which stores NULL, is not consulted);
every other projected column is emitted as the stored record column (in the
source: its bytes reinterpreted as UTF-8 with lossy replacement, which is
how the columns of this model are already represented). -/
theorem c3_primary_key_projection (t : TTree) (R : Nat) (rec : Record)
    (h : get_record_by_row_id R t = some rec) :
    (R, rec.columns) ∈ trows t ∧
    ∀ (ind : Nat) (field : Field),
      get_value_for_record rec ind field =
        if field.is_primary_key then natBytes R else rec.columns.getD ind [] := by
  obtain ⟨h1, h2⟩ := get_record_by_row_id_shape R t h
  refine ⟨h2, fun ind field => ?_⟩
  rw [get_value_for_record, h1]

/-- Witness for C3: fetching rowid 7 from a one-row table; the primary-key
projection is "7" (byte 55), the non-primary projection is the stored
column. -/
theorem c3_primary_key_projection_witness :
    ((7, [[97]]) ∈ trows (TTree.leaf [(7, [[97]])]) ∧
      ∀ (ind : Nat) (field : Field),
        get_value_for_record { row_id := [55], columns := [[97]] } ind field =
          if field.is_primary_key then natBytes 7
          else ([[97]] : List (List Nat)).getD ind []) :=
  c3_primary_key_projection (TTree.leaf [(7, [[97]])]) 7
    { row_id := [55], columns := [[97]] } (by decide)

/-! ## Query executor (src/src/db.rs `DB::process_query`, lines 404-504)

`fields` models the `HashMap<String, (usize, Field)>` built by
`get_fields_in_table`: a map from column name to (record position, field).
The source indexes it with `fields[k]`, which panics on a missing column;
the claims only instantiate it at mapped columns, so it is modelled as a
total function. -/

/-- One printed line of the `Columns` projection (lines 484-490): the
selected columns' values joined by `|` (byte 124). -/
def renderLine (fields : List Nat → Nat × Field) (cols : List (List Nat))
    (rec : Record) : List Nat :=
  List.intercalate [124]
    (cols.map (fun c => get_value_for_record rec (fields c).1 (fields c).2))

/-- The row-printing loop of the `Columns` arm (lines 474-493): when a where
clause is present, the filter is re-evaluated on each record immediately
before printing (`if value != *v { continue; }`), on both execution paths. -/
def printRows (fields : List Nat → Nat × Field) (wc : Option (List Nat × List Nat))
    (cols : List (List Nat)) (recs : List Record) : List (List Nat) :=
  recs.filterMap (fun rec =>
    match wc with
    | some (k, v) =>
      if get_value_for_record rec (fields k).1 (fields k).2 = v then
        some (renderLine fields cols rec)
      else none
    | none => some (renderLine fields cols rec))

/-- The scan path's record set (lines 455-471): all records of the table
B-tree, filtered by the where clause when present. -/
def scanRecords (t : TTree) (fields : List Nat → Nat × Field)
    (wc : Option (List Nat × List Nat)) : List Record :=
  match wc with
  | some (k, v) =>
    (get_them_records t).filter
      (fun rec => decide (get_value_for_record rec (fields k).1 (fields k).2 = v))
  | none => get_them_records t

/-- The index path's record fetch (lines 437-443): descend the table tree
once per collected rowid; a missing rowid is the source's `unreachable!`
inside `get_record_by_row_id` (modelled as `none`). -/
def indexRecords (t : TTree) : List Nat → Option (List Record)
  | [] => some []
  | r :: rs =>
    match get_record_by_row_id r t, indexRecords t rs with
    | some rec, some recs => some (rec :: recs)
    | _, _ => none

/-- The complete index path for a `Columns` projection: collect rowids from
the index B-tree with `parse_page`, fetch each row with
`get_record_by_row_id`, then run the printing loop. -/
def indexPathLines (t : TTree) (idx : ITree) (fields : List Nat → Nat × Field)
    (k v : List Nat) (cols : List (List Nat)) : Option (List (List Nat)) :=
  match parse_page v idx with
  | none => none
  | some rowids =>
    match indexRecords t rowids with
    | none => none
    | some recs => some (printRows fields (some (k, v)) cols recs)

/-- The complete scan path for a `Columns` projection. -/
def scanPathLines (t : TTree) (fields : List Nat → Nat × Field)
    (k v : List Nat) (cols : List (List Nat)) : List (List Nat) :=
  printRows fields (some (k, v)) cols (scanRecords t fields (some (k, v)))

theorem printRows_mem {fields : List Nat → Nat × Field} {k v : List Nat}
    {cols : List (List Nat)} {recs : List Record} {line : List Nat}
    (h : line ∈ printRows fields (some (k, v)) cols recs) :
    ∃ rec ∈ recs, get_value_for_record rec (fields k).1 (fields k).2 = v ∧
      line = renderLine fields cols rec := by
  simp only [printRows, List.mem_filterMap] at h
  obtain ⟨rec, hrec, hl⟩ := h
  by_cases hv : get_value_for_record rec (fields k).1 (fields k).2 = v
  · rw [if_pos hv, Option.some.injEq] at hl
    exact ⟨rec, hrec, hv, hl.symm⟩
  · rw [if_neg hv] at hl
    cases hl

/-- C9: every line the executor prints for a filtered column-list SELECT
comes from a record that satisfies the where clause — the printing loop
re-evaluates the filter immediately before printing.  This holds for the
index path with an ARBITRARY rowid list (even one a broken index traversal
might produce) as well as for the scan path. -/
theorem c9_filter_rechecked_before_print (t : TTree)
    (fields : List Nat → Nat × Field) (k v : List Nat) (cols : List (List Nat)) :
    (∀ (rowids : List Nat) (recs : List Record),
      indexRecords t rowids = some recs →
      ∀ line ∈ printRows fields (some (k, v)) cols recs,
        ∃ rec ∈ recs,
          get_value_for_record rec (fields k).1 (fields k).2 = v ∧
          line = renderLine fields cols rec) ∧
    (∀ line ∈ scanPathLines t fields k v cols,
      ∃ rec ∈ scanRecords t fields (some (k, v)),
        get_value_for_record rec (fields k).1 (fields k).2 = v ∧
        line = renderLine fields cols rec) :=
  ⟨fun _ _ _ _ hline => printRows_mem hline,
   fun _ hline => printRows_mem hline⟩

/-- Witness for C9: a one-row table printed through the index path with the
concrete rowid list `[1]`. -/
theorem c9_filter_rechecked_before_print_witness :
    ∃ rec ∈ [Record.mk [49] [[97]]],
      get_value_for_record rec
        ((fun _ => ((0 : Nat), Field.mk [110] false)) [107]).1
        ((fun _ => ((0 : Nat), Field.mk [110] false)) [107]).2 = [97] ∧
      [97] = renderLine (fun _ => ((0 : Nat), Field.mk [110] false)) [[107]] rec :=
  (c9_filter_rechecked_before_print (TTree.leaf [(1, [[97]])])
      (fun _ => ((0 : Nat), Field.mk [110] false)) [107] [97] [[107]]).1
    [1] [Record.mk [49] [[97]]] (by decide) [97] (by decide)

mutual
theorem get_them_records_eq :
    ∀ t : TTree, get_them_records t = (trows t).map mkRecord
  | TTree.leaf cells => rfl
  | TTree.interior cells rm => by
      rw [get_them_records, trows, List.map_append, get_them_records_eq rm,
        getThemRecordsCells_eq cells]

theorem getThemRecordsCells_eq :
    ∀ cs : TCells, getThemRecordsCells cs = (trowsCells cs).map mkRecord
  | TCells.nil => rfl
  | TCells.cons child key rest => by
      rw [getThemRecordsCells, trowsCells, List.map_append,
        get_them_records_eq child, getThemRecordsCells_eq rest]
end

theorem indexRecords_map {t : TTree} {l : List Nat}
    (h : ∀ r ∈ l, (get_record_by_row_id r t).isSome) :
    indexRecords t l =
      some (l.map (fun r => (get_record_by_row_id r t).getD (Record.mk [] []))) := by
  induction l with
  | nil => rfl
  | cons r rs ih =>
    obtain ⟨rec, hrec⟩ := Option.isSome_iff_exists.mp (h r (List.mem_cons_self r rs))
    rw [indexRecords, hrec, ih (fun x hx => h x (List.mem_cons_of_mem _ hx))]
    simp [hrec]

theorem printRows_all_pass {fields : List Nat → Nat × Field} {k v : List Nat}
    {cols : List (List Nat)} {recs : List Record}
    (h : ∀ rec ∈ recs, get_value_for_record rec (fields k).1 (fields k).2 = v) :
    printRows fields (some (k, v)) cols recs = recs.map (renderLine fields cols) := by
  induction recs with
  | nil => rfl
  | cons rec rs ih =>
    have ih' := ih (fun x hx => h x (List.mem_cons_of_mem _ hx))
    simp only [printRows] at ih' ⊢
    rw [List.filterMap_cons]
    simp only [if_pos (h rec (List.mem_cons_self _ _))]
    rw [ih', List.map_cons]

theorem matchRowids_eq_filter (v : List Nat) (es : List (List Nat × List Nat)) :
    matchRowids v es =
      ((es.map (fun e => (e.1, decodeRowid e.2))).filter
        (fun p => decide (p.1 = v))).map Prod.snd := by
  induction es with
  | nil => rfl
  | cons e rest ih =>
    simp only [matchRowids, List.filterMap_cons, List.map_cons, List.filter_cons]
    by_cases hk : e.1 = v
    · simp only [matchRowids] at ih
      simp [hk, ih]
    · simp only [matchRowids] at ih
      simp [hk, ih]

theorem pairs_filter_eq (val : (Nat × List (List Nat)) → List Nat) (v : List Nat)
    (rows : List (Nat × List (List Nat))) :
    ((rows.map (fun rc => (val rc, rc.1))).filter (fun p => decide (p.1 = v))).map
        Prod.snd
      = (rows.filter (fun rc => decide (val rc = v))).map Prod.fst := by
  induction rows with
  | nil => rfl
  | cons rc rest ih =>
    simp only [List.map_cons, List.filter_cons]
    by_cases hk : val rc = v
    · simp [hk, ih]
    · simp [hk, ih]

/-- C1: for every well-formed database — table B-tree well-formed with
distinct rowids, index B-tree sorted with decodable rowid widths, and the
index being a genuine index on the filtered column (its entry multiset is
exactly the `(column value, rowid)` multiset of the table's rows) —
executing `SELECT cols FROM T WHERE col = 'v'` via the index path (collect
rowids with `parse_page`, fetch each row with `get_record_by_row_id`, print)
yields the same multiset of projected output lines as the scan path
(`get_them_records` followed by filtering on `get_value_for_record`). -/
theorem c1_index_scan_equivalence (t : TTree) (idx : ITree)
    (fields : List Nat → Nat × Field) (k v : List Nat) (cols : List (List Nat))
    (hs : ISorted idx) (hw : IWidths idx)
    (ht : twf t = true) (hnd : (trowids t).Nodup)
    (hcorr : ((ientries idx).map (fun e => (e.1, decodeRowid e.2))).Perm
      ((trows t).map (fun rc =>
        (get_value_for_record (mkRecord rc) (fields k).1 (fields k).2, rc.1)))) :
    ∃ lines, indexPathLines t idx fields k v cols = some lines ∧
      lines.Perm (scanPathLines t fields k v cols) := by
  classical
  set val : (Nat × List (List Nat)) → List Nat :=
    fun rc => get_value_for_record (mkRecord rc) (fields k).1 (fields k).2 with hval
  set matching := (trows t).filter (fun rc => decide (val rc = v)) with hmatching
  set g : Nat → Record :=
    fun r => (get_record_by_row_id r t).getD (Record.mk [] []) with hg
  obtain ⟨rowids, hpp, hperm⟩ := parse_page_perm v idx hs hw
  have hperm2 : rowids.Perm (matching.map Prod.fst) := by
    refine hperm.trans ?_
    rw [matchRowids_eq_filter v (ientries idx)]
    refine ((hcorr.filter (fun p => decide (p.1 = v))).map Prod.snd).trans ?_
    rw [pairs_filter_eq val v (trows t)]
  have hfind : ∀ rc ∈ matching, get_record_by_row_id rc.1 t = some (mkRecord rc) := by
    intro rc hrc
    have hrc' : rc ∈ trows t := List.mem_of_mem_filter hrc
    have := @get_record_by_row_id_finds t rc.1 rc.2 ht hnd (by simpa using hrc')
    simpa [mkRecord] using this
  have hmemrow : ∀ r ∈ rowids, (get_record_by_row_id r t).isSome := by
    intro r hr
    obtain ⟨rc, hrc, hfst⟩ := List.mem_map.mp (hperm2.mem_iff.mp hr)
    rw [← hfst, hfind rc hrc]
    rfl
  have hidx := indexRecords_map hmemrow
  have hgperm : (rowids.map g).Perm (matching.map mkRecord) := by
    refine (hperm2.map g).trans ?_
    rw [List.map_map]
    have heq : matching.map (g ∘ Prod.fst) = matching.map mkRecord :=
      List.map_congr_left (fun rc hrc => by simp [hg, Function.comp, hfind rc hrc])
    rw [heq]
  have hpass : ∀ rec ∈ rowids.map g,
      get_value_for_record rec (fields k).1 (fields k).2 = v := by
    intro rec hrec
    obtain ⟨rc, hrc, hmk⟩ := List.mem_map.mp (hgperm.mem_iff.mp hrec)
    have hdec := List.of_mem_filter hrc
    rw [decide_eq_true_eq] at hdec
    rw [← hmk]
    exact hdec
  have hscan : scanRecords t fields (some (k, v)) = matching.map mkRecord := by
    rw [scanRecords, get_them_records_eq, List.filter_map, hmatching]
    rfl
  have hpass2 : ∀ rec ∈ scanRecords t fields (some (k, v)),
      get_value_for_record rec (fields k).1 (fields k).2 = v := by
    rw [hscan]
    intro rec hrec
    obtain ⟨rc, hrc, hmk⟩ := List.mem_map.mp hrec
    have hdec := List.of_mem_filter hrc
    rw [decide_eq_true_eq] at hdec
    rw [← hmk]
    exact hdec
  refine ⟨(rowids.map g).map (renderLine fields cols), ?_, ?_⟩
  · simp only [indexPathLines, hpp, hidx, printRows_all_pass hpass]
  · rw [scanPathLines, printRows_all_pass hpass2, hscan]
    exact hgperm.map (renderLine fields cols)

/-- Witness for C1: a two-row table with an index on its only column;
searching for "a" (0x61). -/
theorem c1_index_scan_equivalence_witness :
    ∃ lines,
      indexPathLines (TTree.leaf [(1, [[97]]), (2, [[98]])])
        (ITree.leaf [([97], [1]), ([98], [2])])
        (fun _ => ((0 : Nat), Field.mk [110] false)) [99] [97] [[99]] = some lines ∧
      lines.Perm (scanPathLines (TTree.leaf [(1, [[97]]), (2, [[98]])])
        (fun _ => ((0 : Nat), Field.mk [110] false)) [99] [97] [[99]]) :=
  c1_index_scan_equivalence (TTree.leaf [(1, [[97]]), (2, [[98]])])
    (ITree.leaf [([97], [1]), ([98], [2])])
    (fun _ => ((0 : Nat), Field.mk [110] false)) [99] [97] [[99]]
    (by decide) (by decide) (by decide) (by decide) (by decide)

/-! ## Varint and record decoders

src/src/db.rs imports `crate::varint::parse_varint` and
`crate::record::parse_record`, but varint.rs and record.rs are not under
src/; both are modelled from the spec (§4.1, §4.2). -/

/-- Modelled from the spec: src/src/varint.rs (`parse_varint`) is missing
from src/.  §4.1: "given a byte slice, return (value: u64,
bytes_consumed: 1..=9).  Reads up to 8 bytes of 7-bit big-endian groups,
each with the continuation bit in position 7; if the 9th byte is required,
it contributes 8 bits."  The callers destructure an infallible pair, so a
slice ending before a terminator yields what was accumulated. -/
def parse_varint_go : List Nat → Nat → Nat → Nat × Nat
  | [], acc, count => (acc, count)
  | b :: rest, acc, count =>
    if count = 8 then (acc * 256 + b, count + 1)
    else if b < 128 then (acc * 128 + b, count + 1)
    else parse_varint_go rest (acc * 128 + (b % 128)) (count + 1)

def parse_varint (s : List Nat) : Nat × Nat := parse_varint_go s 0 0

/-- Byte width of a serial-type code (spec §3 record table): 0/8/9 are
zero-width, 1..=7 are integers/floats of fixed width, N ≥ 12 is a BLOB or
TEXT of width (N-12)/2 resp. (N-13)/2 (equal under Nat floor division);
10 and 11 are reserved and rejected. -/
def serialTypeWidth (n : Nat) : Option Nat :=
  if 12 ≤ n then some ((n - 12) / 2)
  else match n with
  | 0 => some 0
  | 1 => some 1
  | 2 => some 2
  | 3 => some 3
  | 4 => some 4
  | 5 => some 6
  | 6 => some 8
  | 7 => some 8
  | 8 => some 0
  | 9 => some 0
  | _ => none

/-- Reads serial-type varints until exactly `budget` bytes are consumed.
`fuel` makes the recursion structural; each serial type consumes at least
one byte, so `fuel = budget` suffices. -/
def readSerialTypes (fuel : Nat) (s : List Nat) (budget : Nat) : Option (List Nat) :=
  if budget = 0 then some []
  else
    match fuel with
    | 0 => none
    | fuel + 1 =>
      let (t, k) := parse_varint s
      if k = 0 ∨ budget < k then none
      else
        match readSerialTypes fuel (s.drop k) (budget - k) with
        | some ts => some (t :: ts)
        | none => none

/-- Consume the declared widths to slice out the column payloads. -/
def takeColumns (payload : List Nat) : List Nat → Option (List (List Nat))
  | [] => some []
  | t :: ts =>
    match serialTypeWidth t with
    | none => none
    | some w =>
      if payload.length < w then none
      else
        match takeColumns (payload.drop w) ts with
        | some cols => some (payload.take w :: cols)
        | none => none

/-- Modelled from the spec: src/src/record.rs (`parse_record`) is missing
from src/.  §4.2: read the header length `H` (varint), read serial-type
codes until the varint bytes consumed since step 1 equal `H`, then consume
each declared width to form the column slices.  Truncation is fatal. -/
def parse_record (s : List Nat) : Option (List (List Nat)) :=
  let (h, h0) := parse_varint s
  if h < h0 then none
  else
    match readSerialTypes (h - h0) (s.drop h0) (h - h0) with
    | none => none
    | some ts => takeColumns (s.drop h) ts

/-! ## Page header (src/src/header.rs) -/

inductive BTreePage : Type where
  | InteriorIndex
  | InteriorTable
  | LeafIndex
  | LeafTable
deriving DecidableEq

structure PageHeader where
  page_type : BTreePage
  first_free_block_start : Nat
  number_of_cells : Nat
  start_of_content_area : Nat
  fragmented_free_bytes : Nat
  right_most_pointer : Option Nat
deriving DecidableEq

/-- Big-endian 16-bit read at offset `i`. -/
def u16be (s : List Nat) (i : Nat) : Nat := s.getD i 0 * 256 + s.getD (i + 1) 0

/-- Big-endian 32-bit read at offset `i`. -/
def u32be (s : List Nat) (i : Nat) : Nat :=
  ((s.getD i 0 * 256 + s.getD (i + 1) 0) * 256 + s.getD (i + 2) 0) * 256
    + s.getD (i + 3) 0

/-- src/src/header.rs `PageHeader::parse` (lines 28-56): reject page-type
bytes outside {2,5,10,13}; read the fixed-offset fields;
`right_most_pointer` is present exactly on interior pages.  A stream too
short for the fields is the source's `try_into` failure. -/
def PageHeader.parse (stream : List Nat) : Option PageHeader :=
  if stream.length < 8 then none
  else
    let pt := stream.getD 0 0
    let page_type : Option BTreePage :=
      if pt = 2 then some BTreePage.InteriorIndex
      else if pt = 5 then some BTreePage.InteriorTable
      else if pt = 10 then some BTreePage.LeafIndex
      else if pt = 13 then some BTreePage.LeafTable
      else none
    match page_type with
    | none => none
    | some page_type =>
      let isInterior :=
        page_type = BTreePage.InteriorTable ∨ page_type = BTreePage.InteriorIndex
      if isInterior ∧ stream.length < 12 then none
      else
        some { page_type := page_type
               first_free_block_start := u16be stream 1
               number_of_cells := u16be stream 3
               start_of_content_area := u16be stream 5
               fragmented_free_bytes := stream.getD 7 0
               right_most_pointer :=
                 if isInterior then some (u32be stream 8) else none }

/-- src/src/header.rs `PageHeader::size` (lines 59-64). -/
def PageHeader.size (h : PageHeader) : Nat :=
  match h.page_type with
  | BTreePage.InteriorIndex | BTreePage.InteriorTable => 12
  | BTreePage.LeafIndex | BTreePage.LeafTable => 8

/-! ## Schema catalog (src/src/schema.rs, src/src/db.rs lines 31-69) -/

/-- src/src/db.rs `parse_cell_pointers` (lines 31-39):
`chunks_exact(2).take(n)` of big-endian u16 offsets — an incomplete trailing
chunk is dropped, so fewer than `n` pointers may come back on a short
stream. -/
def parse_cell_pointers : List Nat → Nat → List Nat
  | _, 0 => []
  | a :: b :: rest, n + 1 => (a * 256 + b) :: parse_cell_pointers rest n
  | _, _ => []

/-- src/src/db.rs `parse_btree_leaf_cell_content` (lines 57-69): skip the
payload-size varint and the rowid varint, then decode the record. -/
def parse_btree_leaf_cell_content (cell_pointer : Nat) (page_stream : List Nat) :
    Option (List (List Nat)) :=
  let stream := page_stream.drop cell_pointer
  let (_payload_size, offset) := parse_varint stream
  let (_rowid, read_bytes) := parse_varint (stream.drop offset)
  parse_record (stream.drop (offset + read_bytes))

/-- src/src/schema.rs `Schema` (lines 6-13); the `String` fields are the
UTF-8 bytes of the lossy-decoded record columns. -/
structure Schema where
  kind : List Nat
  name : List Nat
  table_name : List Nat
  root_page : Int
  sql : List Nat
deriving DecidableEq

/-- src/src/schema.rs `Schema::parse_return_option` (lines 26-43): take the
record's first five columns; `root_page` is decoded by
`parse_24bit_be_twos_complement` (whose decode of an unsupported width is a
panic; conflated here with the missing-column `none`). -/
def Schema.parse_return_option (record : List (List Nat)) : Option Schema :=
  match record with
  | kind :: name :: table_name :: rp :: sql :: _ =>
    match parse_24bit_be_twos_complement rp with
    | some root_page =>
      some { kind := kind, name := name, table_name := table_name,
             root_page := root_page, sql := sql }
    | none => none
  | _ => none

/-- src/src/schema.rs `Schema::parse` (lines 46-48). -/
def Schema.parse (record : List (List Nat)) : Option Schema :=
  Schema.parse_return_option record

def mapOptSchemas (db : List Nat) : List Nat → Option (List Schema)
  | [] => some []
  | cp :: cps =>
    match (parse_btree_leaf_cell_content cp db).bind Schema.parse,
        mapOptSchemas db cps with
    | some s, some ss => some (s :: ss)
    | _, _ => none

/-- src/src/db.rs `parse_schemas` (lines 41-55): the cell-pointer array of
page 1 starts at offset 108 (100-byte file header + 8-byte leaf header);
each cell decodes to one schema entry, whatever its kind. -/
def parse_schemas (database : List Nat) (number_of_cells : Nat) :
    Option (List Schema) :=
  mapOptSchemas database (parse_cell_pointers (database.drop 108) number_of_cells)

/-! ## `.dbinfo` (src/src/main.rs) -/

/-- src/src/main.rs `get_page_size` (lines 10-17): read the first 100 bytes
(failing on a shorter file) and take the big-endian u16 at offset 16. -/
def get_page_size (database : List Nat) : Option Nat :=
  if database.length < 100 then none else some (u16be database 16)

/-- The bytes of "database page size: ". -/
def dbinfoLine1Prefix : List Nat :=
  [100, 97, 116, 97, 98, 97, 115, 101, 32, 112, 97, 103, 101, 32, 115, 105,
   122, 101, 58, 32]

/-- The bytes of "number of tables: ". -/
def dbinfoLine2Prefix : List Nat :=
  [110, 117, 109, 98, 101, 114, 32, 111, 102, 32, 116, 97, 98, 108, 101, 115,
   58, 32]

/-- The two lines printed by `.dbinfo` (src/src/main.rs lines 42-46): the
page size from the file header and `db.schemas.len()`, the length of the
schema list parsed from page 1. -/
def dbinfoLines (database : List Nat) : Option (List (List Nat)) :=
  match get_page_size database with
  | none => none
  | some ps =>
    match PageHeader.parse (database.drop 100) with
    | none => none
    | some hdr =>
      match parse_schemas database hdr.number_of_cells with
      | none => none
      | some schemas =>
        some [dbinfoLine1Prefix ++ natBytes ps,
              dbinfoLine2Prefix ++ natBytes schemas.length]

theorem parse_cell_pointers_length {s : List Nat} {n : Nat} (h : 2 * n ≤ s.length) :
    (parse_cell_pointers s n).length = n := by
  induction n generalizing s with
  | zero =>
    match s with
    | [] => rfl
    | [a] => rfl
    | a :: b :: rest => rfl
  | succ n ih =>
    match s with
    | [] => simp at h
    | [a] => simp at h; omega
    | a :: b :: rest =>
      rw [parse_cell_pointers, List.length_cons, ih]
      simp only [List.length_cons] at h
      omega

theorem mapOptSchemas_length {db : List Nat} {cps : List Nat} {ss : List Schema}
    (h : mapOptSchemas db cps = some ss) : ss.length = cps.length := by
  induction cps generalizing ss with
  | nil =>
    rw [mapOptSchemas, Option.some.injEq] at h
    rw [← h]
    rfl
  | cons cp cps ih =>
    rw [mapOptSchemas] at h
    cases h1 : (parse_btree_leaf_cell_content cp db).bind Schema.parse with
    | none => rw [h1] at h; cases h
    | some s =>
      cases h2 : mapOptSchemas db cps with
      | none => rw [h1, h2] at h; cases h
      | some ss' =>
        rw [h1, h2, Option.some.injEq] at h
        rw [← h, List.length_cons, List.length_cons, ih h2]

/-- C7: on a database whose page-1 header parses and whose catalog cells all
decode, `.dbinfo` prints exactly two lines: "database page size: " followed
by the big-endian u16 at file offset 16, then "number of tables: " followed
by the cell count of page 1's B-tree page header — one count per catalog
cell, whatever the entry's kind (tables and indices alike). -/
theorem c7_dbinfo_lines (database : List Nat) (hdr : PageHeader)
    (schemas : List Schema)
    (hph : PageHeader.parse (database.drop 100) = some hdr)
    (hs : parse_schemas database hdr.number_of_cells = some schemas)
    (hlen : 108 + 2 * hdr.number_of_cells ≤ database.length) :
    dbinfoLines database =
      some [dbinfoLine1Prefix ++ natBytes (u16be database 16),
            dbinfoLine2Prefix ++ natBytes hdr.number_of_cells] := by
  have h100 : ¬ database.length < 100 := by omega
  have hcount : schemas.length = hdr.number_of_cells := by
    rw [parse_schemas] at hs
    rw [mapOptSchemas_length hs]
    exact parse_cell_pointers_length (by rw [List.length_drop]; omega)
  simp only [dbinfoLines, get_page_size, if_neg h100, hph, hs, hcount]

/-- A concrete 149-byte database: page size 4096, one catalog cell holding
the schema row (table, t, t, 2, "CREATE TABLE t (a text)"). -/
def c7Db : List Nat :=
  List.replicate 16 0 ++ [16, 0] ++ List.replicate 82 0 ++
  [13, 0, 0, 0, 1, 0, 0, 0] ++ [0, 110] ++
  [37, 1] ++ [6, 23, 15, 15, 1, 59] ++
  [116, 97, 98, 108, 101] ++ [116] ++ [116] ++ [2] ++
  [67, 82, 69, 65, 84, 69, 32, 84, 65, 66, 76, 69, 32, 116, 32, 40, 97, 32,
   116, 101, 120, 116, 41]

/-- Witness for C7 on `c7Db`: page size 4096, one table counted. -/
theorem c7_dbinfo_lines_witness :
    dbinfoLines c7Db =
      some [dbinfoLine1Prefix ++ natBytes (u16be c7Db 16),
            dbinfoLine2Prefix ++ natBytes 1] :=
  c7_dbinfo_lines c7Db
    { page_type := BTreePage.LeafTable, first_free_block_start := 0,
      number_of_cells := 1, start_of_content_area := 0,
      fragmented_free_bytes := 0, right_most_pointer := none }
    [{ kind := [116, 97, 98, 108, 101], name := [116], table_name := [116],
       root_page := 2,
       sql := [67, 82, 69, 65, 84, 69, 32, 84, 65, 66, 76, 69, 32, 116, 32,
               40, 97, 32, 116, 101, 120, 116, 41] }]
    (by decide) (by decide) (by decide)

/-! ## DDL parsers (src/src/creation_sql.rs)

The nom combinators over `&[u8]` are embedded as functions
`List Nat → Option (List Nat × A)` returning `(remaining input, value)`,
mirroring nom's `IResult`. -/

def isSpaceByte (b : Nat) : Bool := b = 32 || b = 9 || b = 10 || b = 13

def toLowerByte (b : Nat) : Nat := if 65 ≤ b ∧ b ≤ 90 then b + 32 else b

/-- nom `is_alphanumeric` (ASCII). -/
def is_alphanumeric (b : Nat) : Bool :=
  (48 ≤ b && b ≤ 57) || (65 ≤ b && b ≤ 90) || (97 ≤ b && b ≤ 122)

/-- creation_sql.rs `is_sql_identifier` (lines 93-95). -/
def is_sql_identifier (b : Nat) : Bool := is_alphanumeric b || b = 95

/-- nom `tag`: exact byte-sequence prefix match. -/
def tag (pat : List Nat) (s : List Nat) : Option (List Nat × List Nat) :=
  if pat.isPrefixOf s then some (s.drop pat.length, pat) else none

/-- nom `tag_no_case`: ASCII case-insensitive prefix match. -/
def tag_no_case (pat : List Nat) (s : List Nat) : Option (List Nat × List Nat) :=
  if pat.length ≤ s.length ∧ (s.take pat.length).map toLowerByte = pat.map toLowerByte
  then some (s.drop pat.length, s.take pat.length)
  else none

/-- nom `multispace0` (never fails). -/
def multispace0 (s : List Nat) : Option (List Nat × List Nat) :=
  some (s.dropWhile isSpaceByte, s.takeWhile isSpaceByte)

/-- nom `multispace1`. -/
def multispace1 (s : List Nat) : Option (List Nat × List Nat) :=
  if (s.takeWhile isSpaceByte).isEmpty then none
  else some (s.dropWhile isSpaceByte, s.takeWhile isSpaceByte)

/-- nom `take_while1`. -/
def take_while1 (p : Nat → Bool) (s : List Nat) : Option (List Nat × List Nat) :=
  if (s.takeWhile p).isEmpty then none
  else some (s.dropWhile p, s.takeWhile p)

/-- nom `alphanumeric1`. -/
def alphanumeric1 (s : List Nat) : Option (List Nat × List Nat) :=
  take_while1 is_alphanumeric s

/-- creation_sql.rs `identifier` (lines 57-70): a double-quoted identifier
(identifier bytes or spaces between `"`s), or a bare identifier. -/
def identifier (input : List Nat) : Option (List Nat × List Nat) :=
  let quoted :=
    match tag [34] input with
    | some (s1, _) =>
      match take_while1 (fun ch => is_sql_identifier ch || ch == 32) s1 with
      | some (s2, name) =>
        match tag [34] s2 with
        | some (s3, _) => some (s3, name)
        | none => none
      | none => none
    | none => none
  match quoted with
  | some r => some r
  | none => take_while1 is_sql_identifier input

def notNullBytes : List Nat := [78, 79, 84, 32, 78, 85, 76, 76]

def autoincrementBytes : List Nat :=
  [65, 85, 84, 79, 73, 78, 67, 82, 69, 77, 69, 78, 84]

def primaryKeyBytes : List Nat := [80, 82, 73, 77, 65, 82, 89, 32, 75, 69, 89]

/-- `delimited(multispace0, tag_no_case pat, multispace0)`. -/
def constraintTag (pat : List Nat) (s : List Nat) : Option (List Nat × List Nat) :=
  match multispace0 s with
  | some (s1, _) =>
    match tag_no_case pat s1 with
    | some (s2, val) =>
      match multispace0 s2 with
      | some (s3, _) => some (s3, val)
      | none => none
    | none => none
  | none => none

/-- creation_sql.rs `column_constraint` (lines 112-120):
NOT NULL / AUTOINCREMENT / PRIMARY KEY, each space-delimited. -/
def column_constraint (s : List Nat) : Option (List Nat × List Nat) :=
  match constraintTag notNullBytes s with
  | some r => some r
  | none =>
    match constraintTag autoincrementBytes s with
    | some r => some r
    | none => constraintTag primaryKeyBytes s

/-- `many0(column_constraint)`, results discarded as in the source.  `fuel`
makes the loop structural; every constraint consumes at least one byte, so
`s.length` iterations always suffice. -/
def manyConstraints (fuel : Nat) (s : List Nat) : List Nat :=
  match column_constraint s with
  | none => s
  | some (rest, _) =>
    match fuel with
    | 0 => rest
    | fuel + 1 => manyConstraints fuel rest

/-- `opt(delimited(multispace0, alphanumeric1, multispace0))` — the optional
type token of a field; on failure the input is left untouched. -/
def optTypeToken (s : List Nat) : List Nat :=
  match multispace0 s with
  | some (s1, _) =>
    match alphanumeric1 s1 with
    | some (s2, _) =>
      match multispace0 s2 with
      | some (s3, _) => s3
      | none => s
    | none => s
  | none => s

/-- `opt(delimited(multispace0, tag ",", multispace0))`. -/
def optComma (s : List Nat) : List Nat :=
  match multispace0 s with
  | some (s1, _) =>
    match tag [44] s1 with
    | some (s2, _) =>
      match multispace0 s2 with
      | some (s3, _) => s3
      | none => s
    | none => s
  | none => s

/-- src/src/creation_sql.rs `field_specification` (lines 101-110): parse the
identifier, the optional type token, `many0(column_constraint)` and an
optional comma, and build `Field { name: column }`.  The parsed constraints
are DISCARDED and the declared `Field` struct has no primary-key member, so
the modelled `is_primary_key` is constantly `false` (see C5). -/
def field_specification (s : List Nat) : Option (List Nat × Field) :=
  match identifier s with
  | none => none
  | some (s1, column) =>
    let s2 := optTypeToken s1
    let s3 := manyConstraints s2.length s2
    let s4 := optComma s3
    some (s4, { name := column, is_primary_key := false })

/-- The `many1` tail loop of `field_specification_list`. -/
def manyFields (fuel : Nat) (s : List Nat) : List Field × List Nat :=
  match field_specification s with
  | none => ([], s)
  | some (rest, f) =>
    match fuel with
    | 0 => ([f], rest)
    | fuel + 1 =>
      let (fs, r) := manyFields fuel rest
      (f :: fs, r)

/-- creation_sql.rs `field_specification_list` (lines 97-99):
`many1(field_specification)`. -/
def field_specification_list (s : List Nat) : Option (List Nat × List Field) :=
  match field_specification s with
  | none => none
  | some (rest, f) =>
    let (fs, r) := manyFields rest.length rest
    some (r, f :: fs)

/-- src/src/creation_sql.rs `CreateTableStatement` (lines 130-136). -/
structure CreateTableStatement where
  table : List Nat
  fields : List Field
deriving DecidableEq

def createBytes : List Nat := [99, 114, 101, 97, 116, 101]

def tableBytes : List Nat := [116, 97, 98, 108, 101]

def ifNotExistsBytes : List Nat :=
  [73, 70, 32, 78, 79, 84, 32, 69, 88, 73, 83, 84, 83]

/-- src/src/creation_sql.rs `parse_creation` (lines 73-91):
`CREATE TABLE [IF NOT EXISTS] <ident> ( <fields> ) [;]`. -/
def parse_creation (input : List Nat) : Option (List Nat × CreateTableStatement) :=
  match tag_no_case createBytes input with
  | none => none
  | some (s1, _) =>
  match multispace1 s1 with
  | none => none
  | some (s2, _) =>
  match tag_no_case tableBytes s2 with
  | none => none
  | some (s3, _) =>
  match multispace1 s3 with
  | none => none
  | some (s4, _) =>
  let s5 :=
    match tag_no_case ifNotExistsBytes s4 with
    | some (t1, _) =>
      match multispace1 t1 with
      | some (t2, _) => t2
      | none => s4
    | none => s4
  match identifier s5 with
  | none => none
  | some (s6, table) =>
  let s7 := s6.dropWhile isSpaceByte
  match tag [40] s7 with
  | none => none
  | some (s8, _) =>
  let s9 := s8.dropWhile isSpaceByte
  match field_specification_list s9 with
  | none => none
  | some (s10, fields) =>
  let s11 := s10.dropWhile isSpaceByte
  match tag [41] s11 with
  | none => none
  | some (s12, _) =>
  let s13 :=
    match tag [59] s12 with
    | some (t, _) => t
    | none => s12
  some (s13, { table := table, fields := fields })

/-- src/src/creation_sql.rs `IndexInfo` (lines 14-19). -/
structure IndexInfo where
  index_name : List Nat
  table_name : List Nat
  column_name : List Nat
deriving DecidableEq

def indexBytes : List Nat := [105, 110, 100, 101, 120]

def onBytes : List Nat := [111, 110]

def uniqueBytes : List Nat := [117, 110, 105, 113, 117, 101]

/-- src/src/creation_sql.rs `parse_create_index` (lines 22-53):
`CREATE [unique] INDEX <ident> ON <ident> ( <ident> )` (the `unique` tag is
case-sensitive in the source). -/
def parse_create_index (input : List Nat) : Option (List Nat × IndexInfo) :=
  match tag_no_case createBytes input with
  | none => none
  | some (s1, _) =>
  match multispace1 s1 with
  | none => none
  | some (s2, _) =>
  let s3 :=
    match tag uniqueBytes s2 with
    | some (t1, _) =>
      match multispace1 t1 with
      | some (t2, _) => t2
      | none => s2
    | none => s2
  match tag_no_case indexBytes s3 with
  | none => none
  | some (s4, _) =>
  match multispace1 s4 with
  | none => none
  | some (s5, _) =>
  match identifier s5 with
  | none => none
  | some (s6, index_name) =>
  match multispace1 s6 with
  | none => none
  | some (s7, _) =>
  match tag_no_case onBytes s7 with
  | none => none
  | some (s8, _) =>
  match multispace1 s8 with
  | none => none
  | some (s9, _) =>
  match identifier s9 with
  | none => none
  | some (s10, table_name) =>
  let s11 := s10.dropWhile isSpaceByte
  match tag [40] s11 with
  | none => none
  | some (s12, _) =>
  let s13 := s12.dropWhile isSpaceByte
  match identifier s13 with
  | none => none
  | some (s14, column_name) =>
  let s15 := s14.dropWhile isSpaceByte
  match tag [41] s15 with
  | none => none
  | some (s16, _) =>
  some (s16, { index_name := index_name, table_name := table_name,
               column_name := column_name })

/-- The bytes of "CREATE TABLE t (id integer primary key, name text)". -/
def c5Input : List Nat :=
  [67, 82, 69, 65, 84, 69, 32, 84, 65, 66, 76, 69, 32, 116, 32, 40,
   105, 100, 32, 105, 110, 116, 101, 103, 101, 114, 32,
   112, 114, 105, 109, 97, 114, 121, 32, 107, 101, 121, 44, 32,
   110, 97, 109, 101, 32, 116, 101, 120, 116, 41]

/-- C5: evaluating the CREATE TABLE parser at a statement whose first column
is declared `primary key`.  The parser accepts it and returns the fields in
declaration order, but each field carries only its name: `column_constraint`
parses the `PRIMARY KEY` token and `field_specification` throws the result
away, and the `Field` struct declared in creation_sql.rs has no
`is_primary_key` member (the executor in db.rs/util.rs nevertheless reads
`field.is_primary_key`, so the flag was clearly intended). -/
theorem c5_fields_lack_primary_key_flag :
    parse_creation c5Input =
      some ([], { table := [116]
                  fields := [{ name := [105, 100], is_primary_key := false },
                             { name := [110, 97, 109, 101], is_primary_key := false }] }) := by
  decide

/-! ## Planner (src/src/db.rs `DB::process_query`, lines 406-423) -/

/-- The bytes of "index". -/
def kindIndexBytes : List Nat := [105, 110, 100, 101, 120]

/-- The planner's index decision (lines 406-423): `find` the FIRST catalog
entry with kind "index" on the queried table; if found, parse its CREATE
INDEX sql and use the index path only when that single index's column equals
the filter key.  (`parse_create_index(...).unwrap()` panics on an unparsable
sql; not reached under the claims' inputs.) -/
def planIndex (schemas : List Schema) (table key : List Nat) : Option IndexInfo :=
  match schemas.find?
      (fun s => decide (s.kind = kindIndexBytes) && decide (s.table_name = table)) with
  | none => none
  | some s =>
    match parse_create_index s.sql with
    | none => none
    | some (_, info) =>
      if info.column_name = key then some info else none

/-- Catalog entry: index i1 on t (other). -/
def c6S1 : Schema :=
  { kind := kindIndexBytes, name := [105, 49], table_name := [116], root_page := 3,
    sql := [67, 82, 69, 65, 84, 69, 32, 73, 78, 68, 69, 88, 32, 105, 49, 32,
            111, 110, 32, 116, 32, 40, 111, 116, 104, 101, 114, 41] }

/-- Catalog entry: index i2 on t (col). -/
def c6S2 : Schema :=
  { kind := kindIndexBytes, name := [105, 50], table_name := [116], root_page := 4,
    sql := [67, 82, 69, 65, 84, 69, 32, 73, 78, 68, 69, 88, 32, 105, 50, 32,
            111, 110, 32, 116, 32, 40, 99, 111, 108, 41] }

/-- C6 counterexample: the catalog holds an entry of kind "index" on table
"t" whose indexed column is "col" (namely i2), yet the planner chooses the
scan path (`planIndex = none`), because it inspects only the FIRST index
found for the table (i1, on "other").  This refutes the claim's "if and only
if". -/
theorem c6_planner_misses_second_index :
    planIndex [c6S1, c6S2] [116] [99, 111, 108] = none ∧
    c6S2 ∈ [c6S1, c6S2] ∧
    c6S2.kind = kindIndexBytes ∧
    c6S2.table_name = [116] ∧
    (parse_create_index c6S2.sql).map (fun r => r.2.column_name) =
      some [99, 111, 108] := by
  decide

/-- C6 (amended): the planner takes the index path iff the FIRST catalog
entry of kind "index" on the queried table — first in catalog order, with no
earlier such entry — has a CREATE INDEX sql that parses to the filter
column; any match in a LATER index is ignored and the scan path is planned. -/
theorem c6_planner_uses_first_index_only (schemas : List Schema)
    (table key : List Nat) (info : IndexInfo) :
    planIndex schemas table key = some info ↔
      ∃ pre s post,
        schemas = pre ++ s :: post ∧
        (∀ s' ∈ pre, ¬ (s'.kind = kindIndexBytes ∧ s'.table_name = table)) ∧
        s.kind = kindIndexBytes ∧ s.table_name = table ∧
        (∃ rest, parse_create_index s.sql = some (rest, info)) ∧
        info.column_name = key := by
  induction schemas with
  | nil =>
    simp only [planIndex, List.find?_nil]
    constructor
    · intro h
      cases h
    · rintro ⟨pre, s, post, hsplit, -⟩
      cases pre <;> simp at hsplit
  | cons s0 rest ih =>
    by_cases hp : s0.kind = kindIndexBytes ∧ s0.table_name = table
    · -- the head is the first index on the table: find? stops here
      have hfind : (s0 :: rest).find?
          (fun s => decide (s.kind = kindIndexBytes) && decide (s.table_name = table))
          = some s0 := by
        rw [List.find?_cons_of_pos]
        simp [hp.1, hp.2]
      constructor
      · intro h
        simp only [planIndex, hfind] at h
        cases hpc : parse_create_index s0.sql with
        | none =>
          simp only [hpc] at h
          cases h
        | some r =>
          obtain ⟨r1, r2⟩ := r
          simp only [hpc] at h
          by_cases hcol : r2.column_name = key
          · rw [if_pos hcol, Option.some.injEq] at h
            subst h
            exact ⟨[], s0, rest, rfl, by simp, hp.1, hp.2, ⟨r1, hpc⟩, hcol⟩
          · rw [if_neg hcol] at h
            cases h
      · rintro ⟨pre, s, post, hsplit, hpre, hk, htn, ⟨r, hpc⟩, hcol⟩
        have hs0 : s = s0 := by
          cases pre with
          | nil =>
            rw [List.nil_append] at hsplit
            injection hsplit with h1 h2
            exact h1.symm
          | cons p ps =>
            exfalso
            rw [List.cons_append] at hsplit
            injection hsplit with h1 h2
            exact hpre p (List.mem_cons_self _ _) (h1 ▸ hp)
        subst hs0
        simp only [planIndex, hfind, hpc]
        rw [if_pos hcol]
    · -- the head is not an index on the table: find? skips it
      have hplan : planIndex (s0 :: rest) table key = planIndex rest table key := by
        rw [planIndex, planIndex, List.find?_cons_of_neg]
        simp only [Bool.and_eq_true, decide_eq_true_eq]
        exact fun hc => hp hc
      rw [hplan, ih]
      constructor
      · rintro ⟨pre, s, post, hsplit, hpre, hk, htn, hpc, hcol⟩
        refine ⟨s0 :: pre, s, post, by rw [List.cons_append, hsplit], ?_, hk, htn,
          hpc, hcol⟩
        intro s' hs'
        rcases List.mem_cons.mp hs' with h | h
        · exact h ▸ hp
        · exact hpre s' h
      · rintro ⟨pre, s, post, hsplit, hpre, hk, htn, hpc, hcol⟩
        cases pre with
        | nil =>
          exfalso
          rw [List.nil_append] at hsplit
          injection hsplit with h1 h2
          exact hp (h1 ▸ ⟨hk, htn⟩)
        | cons p ps =>
          rw [List.cons_append] at hsplit
          injection hsplit with h1 h2
          exact ⟨ps, s, post, h2,
            fun s' hs' => hpre s' (List.mem_cons_of_mem _ hs'), hk, htn, hpc, hcol⟩

/-! ## SELECT parser (src/src/select_sql.rs)

The rust-peg grammar over `str` is embedded over `List Char`; each rule
returns `Option (value × remaining input)`.  The generated top-level parse
function requires the rule to consume the entire input. -/

namespace select_sql

/-- select_sql.rs `SelectClause` (lines 41-45). -/
inductive SelectClause : Type where
  | Columns : List (List Char) → SelectClause
  | FunctionCall : List Char → SelectClause
deriving DecidableEq

/-- select_sql.rs `Sql` (lines 48-53). -/
structure Sql where
  select_clause : SelectClause
  table : List Char
  where_clause : Option (List Char × List Char)
deriving DecidableEq

/-- `ws` / `wsz` character class: space or tab. -/
def isWsChar (c : Char) : Bool := c = ' ' || c = '\t'

/-- `identifier` character class: ASCII letters and underscore. -/
def isIdentChar (c : Char) : Bool :=
  ('a' ≤ c && c ≤ 'z') || ('A' ≤ c && c ≤ 'Z') || c = '_'

/-- The rule `identifier` (lines 28-29). -/
def identifier (s : List Char) : Option (List Char × List Char) :=
  if (s.takeWhile isIdentChar).isEmpty then none
  else some (s.takeWhile isIdentChar, s.dropWhile isIdentChar)

/-- The rule `ws` (line 31): one or more spaces/tabs. -/
def ws (s : List Char) : Option (Unit × List Char) :=
  if (s.takeWhile isWsChar).isEmpty then none
  else some ((), s.dropWhile isWsChar)

/-- Take exactly `n` characters (`[_]*<{n}>` in the `kw` rule). -/
def splitExact : Nat → List Char → Option (List Char × List Char)
  | 0, s => some ([], s)
  | _ + 1, [] => none
  | n + 1, c :: cs =>
    match splitExact n cs with
    | some (tk, rest) => some (c :: tk, rest)
    | none => none

/-- The rule `kw` (lines 35-37): take `pat.length` characters and compare
them ASCII-case-insensitively (`eq_ignore_ascii_case`) against the
keyword. -/
def kw (pat : List Char) (s : List Char) : Option (Unit × List Char) :=
  match splitExact pat.length s with
  | none => none
  | some (tk, rest) =>
    if tk.map Char.toLower = pat.map Char.toLower then some ((), rest) else none

/-- The rule `function_call` (lines 16-17): `identifier "(*)"`. -/
def function_call (s : List Char) : Option (List Char × List Char) :=
  match identifier s with
  | none => none
  | some (name, s1) =>
    match s1 with
    | '(' :: '*' :: ')' :: rest => some (name, rest)
    | _ => none

/-- The separated-list tail of `column_list`: `("," wsz() identifier)*`,
backtracking the separator when no identifier follows.  `fuel` makes the
loop structural; each iteration consumes at least the comma. -/
def column_list_rest (fuel : Nat) (s : List Char) : List (List Char) × List Char :=
  match s with
  | ',' :: s1 =>
    (match identifier (s1.dropWhile isWsChar) with
     | some (name, s3) =>
       match fuel with
       | 0 => ([name], s3)
       | fuel + 1 =>
         let (ns, r) := column_list_rest fuel s3
         (name :: ns, r)
     | none => ([], s))
  | _ => ([], s)

/-- The rule `column_list` (lines 19-20): `identifier ** ("," wsz())` —
zero or more identifiers separated by comma-plus-whitespace. -/
def column_list (s : List Char) : Option (List (List Char) × List Char) :=
  match identifier s with
  | none => some ([], s)
  | some (name, s1) =>
    let (ns, r) := column_list_rest s1.length s1
    some (name :: ns, r)

/-- The rule `select_clause` (lines 12-14): `function_call` first, else
`column_list`. -/
def select_clause (s : List Char) : Option (SelectClause × List Char) :=
  match function_call s with
  | some (name, rest) => some (SelectClause.FunctionCall name, rest)
  | none =>
    match column_list s with
    | some (cols, rest) => some (SelectClause.Columns cols, rest)
    | none => none

def isQuoteChar (c : Char) : Bool := c.toNat = 39

/-- The rule `quoted_string` (lines 22-23): a single-quote delimited string
of non-quote characters.  Double quotes are NOT accepted as delimiters. -/
def quoted_string (s : List Char) : Option (List Char × List Char) :=
  match s with
  | c :: s1 =>
    if isQuoteChar c then
      match s1.dropWhile (fun ch => !isQuoteChar ch) with
      | c2 :: rest =>
        if isQuoteChar c2 then some (s1.takeWhile (fun ch => !isQuoteChar ch), rest)
        else none
      | [] => none
    else none
  | [] => none

/-- The rule `optional_where_clause` (lines 25-26):
`ws "WHERE" ws identifier wsz "=" wsz quoted_string`.  The only comparison
operator in the grammar is `=`. -/
def optional_where_clause (s : List Char) :
    Option ((List Char × List Char) × List Char) :=
  match ws s with
  | none => none
  | some (_, s1) =>
  match kw ['W', 'H', 'E', 'R', 'E'] s1 with
  | none => none
  | some (_, s2) =>
  match ws s2 with
  | none => none
  | some (_, s3) =>
  match identifier s3 with
  | none => none
  | some (key, s4) =>
  match s4.dropWhile isWsChar with
  | c :: s6 =>
    if c = '=' then
      match quoted_string (s6.dropWhile isWsChar) with
      | some (value, s8) => some ((key, value), s8)
      | none => none
    else none
  | [] => none

/-- The rule `select_statement` (lines 4-10):
`SELECT select_clause FROM identifier [where]`.  The grammar has no join
syntax, no ORDER BY, and nothing after the optional where clause. -/
def select_statement (s : List Char) : Option (Sql × List Char) :=
  match kw ['S', 'E', 'L', 'E', 'C', 'T'] s with
  | none => none
  | some (_, s1) =>
  match ws s1 with
  | none => none
  | some (_, s2) =>
  match select_clause s2 with
  | none => none
  | some (sc, s3) =>
  match ws s3 with
  | none => none
  | some (_, s4) =>
  match kw ['F', 'R', 'O', 'M'] s4 with
  | none => none
  | some (_, s5) =>
  match ws s5 with
  | none => none
  | some (_, s6) =>
  match identifier s6 with
  | none => none
  | some (table, s7) =>
  match optional_where_clause s7 with
  | some (wc, s8) =>
    some ({ select_clause := sc, table := table, where_clause := some wc }, s8)
  | none =>
    some ({ select_clause := sc, table := table, where_clause := none }, s7)

/-- select_sql.rs `parse_sql` (lines 55-57): the generated parse function
succeeds only when `select_statement` consumes the ENTIRE input — trailing
unconsumed text is a parse error, never silently dropped. -/
def parse_sql (s : List Char) : Option Sql :=
  match select_statement s with
  | some (sql, []) => some sql
  | _ => none

end select_sql

/-- The characters of "SELECT one FROM t JOIN ". -/
def c8JoinPrefix : List Char :=
  ['S', 'E', 'L', 'E', 'C', 'T', ' ', 'o', 'n', 'e', ' ', 'F', 'R', 'O', 'M',
   ' ', 't', ' ', 'J', 'O', 'I', 'N', ' ']

/-- The characters of "SELECT one FROM t ORDER BY ". -/
def c8OrderByPrefix : List Char :=
  ['S', 'E', 'L', 'E', 'C', 'T', ' ', 'o', 'n', 'e', ' ', 'F', 'R', 'O', 'M',
   ' ', 't', ' ', 'O', 'R', 'D', 'E', 'R', ' ', 'B', 'Y', ' ']

/-- The characters of "SELECT one FROM t WHERE a > ". -/
def c8CmpPrefix : List Char :=
  ['S', 'E', 'L', 'E', 'C', 'T', ' ', 'o', 'n', 'e', ' ', 'F', 'R', 'O', 'M',
   ' ', 't', ' ', 'W', 'H', 'E', 'R', 'E', ' ', 'a', ' ', '>', ' ']

/-- The characters of `SELECT one FROM t WHERE a = "` (a double-quoted
string literal beginning). -/
def c8DQuotePrefix : List Char :=
  ['S', 'E', 'L', 'E', 'C', 'T', ' ', 'o', 'n', 'e', ' ', 'F', 'R', 'O', 'M',
   ' ', 't', ' ', 'W', 'H', 'E', 'R', 'E', ' ', 'a', ' ', '=', ' ', '"']

/-- C8: unsupported features parse-fail explicitly, for EVERY continuation
of the offending text: a join, an ORDER BY clause, a WHERE operator other
than `=`, and a double-quoted string literal each make `parse_sql` return a
parse error (the grammar accepts none of them and the top-level parse
requires full input consumption, so no AST is returned with the unsupported
part silently dropped). -/
theorem c8_unsupported_features_fail :
    (∀ rest : List Char, select_sql.parse_sql (c8JoinPrefix ++ rest) = none) ∧
    (∀ rest : List Char, select_sql.parse_sql (c8OrderByPrefix ++ rest) = none) ∧
    (∀ rest : List Char, select_sql.parse_sql (c8CmpPrefix ++ rest) = none) ∧
    (∀ rest : List Char, select_sql.parse_sql (c8DQuotePrefix ++ rest) = none) :=
  ⟨fun _ => rfl, fun _ => rfl, fun _ => rfl, fun _ => rfl⟩

end Sqlite
